import Mathlib

/-!
Verification development for the weighted partial-correlation test
(`ParCorrWLS`, file `tigramite/independence_tests/parcorr_wls.py`).

Embedding conventions:
* Floating-point numbers are modelled by exact rationals `ℚ`; a value that
  is IEEE not-a-number is modelled by `none` in an `Option ℚ` entry.  Input
  data arrays contain finite values or NaN (never infinities), matching the
  data model of the specification, so `np.sum(array)` is NaN exactly when
  some entry is NaN; `oadd` below is the NaN-absorbing addition realising
  this.
* `np.reciprocal` applied to `0.0` yields the non-finite float `inf`; this
  is modelled by `npReciprocal` returning `none`.  When any weight is
  non-finite, the weighted least-squares call receives non-finite inputs,
  whose floating-point outcome is implementation defined; the embedding
  marks such executions with the dedicated result `ResidResult.nonFinite`.
* Python's dynamically typed expert-knowledge values are modelled by the
  inductive type `PyVal`; runtime type errors (AttributeError, TypeError,
  IndexError, KeyError) become `Except.error` values.
* `numpy.linalg.lstsq` is an external collaborator. Modelled from the spec:
  "solve for coefficients via least-squares fit (minimum-norm solution on
  rank deficiency, no exception raised)"; `lstsq` below is the normal
  equations solution, which agrees with the least-squares solution whenever
  the Gram matrix is invertible (the full-column-rank case) and returns the
  zero vector otherwise.
* `np.std` requires a square root; `ratSqrt` computes the exact square root
  of every rational that is a perfect square (witness inputs are chosen in
  that domain).
-/

/-- NaN-absorbing addition on `Option ℚ`: the sum of a float list is NaN
exactly when a NaN occurred (no infinities arise in the modelled inputs). -/
def oadd : Option ℚ → Option ℚ → Option ℚ
  | some a, some b => some (a + b)
  | _, _ => none

/-- Model of a Python runtime value as used for the expert-knowledge
configuration: integers, strings, tuples, lists and integer-keyed dicts. -/
inductive PyVal where
  | int (n : ℤ)
  | str (s : String)
  | tup (l : List PyVal)
  | list (l : List PyVal)
  | dict (entries : List (ℤ × PyVal))

mutual

/-- Decidable equality on `PyVal` (manual: nested inductive). -/
def PyVal.decEq : (a b : PyVal) → Decidable (a = b)
  | .int a, .int b =>
      match (inferInstance : DecidableEq ℤ) a b with
      | isTrue h => isTrue (by rw [h])
      | isFalse h => isFalse (by simp [h])
  | .str a, .str b =>
      match (inferInstance : DecidableEq String) a b with
      | isTrue h => isTrue (by rw [h])
      | isFalse h => isFalse (by simp [h])
  | .tup a, .tup b =>
      match PyVal.decEqList a b with
      | isTrue h => isTrue (by rw [h])
      | isFalse h => isFalse (by simp [h])
  | .list a, .list b =>
      match PyVal.decEqList a b with
      | isTrue h => isTrue (by rw [h])
      | isFalse h => isFalse (by simp [h])
  | .dict a, .dict b =>
      match PyVal.decEqEntries a b with
      | isTrue h => isTrue (by rw [h])
      | isFalse h => isFalse (by simp [h])
  | .int _, .str _ => isFalse (fun h => PyVal.noConfusion h)
  | .int _, .tup _ => isFalse (fun h => PyVal.noConfusion h)
  | .int _, .list _ => isFalse (fun h => PyVal.noConfusion h)
  | .int _, .dict _ => isFalse (fun h => PyVal.noConfusion h)
  | .str _, .int _ => isFalse (fun h => PyVal.noConfusion h)
  | .str _, .tup _ => isFalse (fun h => PyVal.noConfusion h)
  | .str _, .list _ => isFalse (fun h => PyVal.noConfusion h)
  | .str _, .dict _ => isFalse (fun h => PyVal.noConfusion h)
  | .tup _, .int _ => isFalse (fun h => PyVal.noConfusion h)
  | .tup _, .str _ => isFalse (fun h => PyVal.noConfusion h)
  | .tup _, .list _ => isFalse (fun h => PyVal.noConfusion h)
  | .tup _, .dict _ => isFalse (fun h => PyVal.noConfusion h)
  | .list _, .int _ => isFalse (fun h => PyVal.noConfusion h)
  | .list _, .str _ => isFalse (fun h => PyVal.noConfusion h)
  | .list _, .tup _ => isFalse (fun h => PyVal.noConfusion h)
  | .list _, .dict _ => isFalse (fun h => PyVal.noConfusion h)
  | .dict _, .int _ => isFalse (fun h => PyVal.noConfusion h)
  | .dict _, .str _ => isFalse (fun h => PyVal.noConfusion h)
  | .dict _, .tup _ => isFalse (fun h => PyVal.noConfusion h)
  | .dict _, .list _ => isFalse (fun h => PyVal.noConfusion h)

/-- Decidable equality on lists of `PyVal`. -/
def PyVal.decEqList : (a b : List PyVal) → Decidable (a = b)
  | [], [] => isTrue rfl
  | [], _ :: _ => isFalse (fun h => List.noConfusion h)
  | _ :: _, [] => isFalse (fun h => List.noConfusion h)
  | x :: xs, y :: ys =>
      match PyVal.decEq x y, PyVal.decEqList xs ys with
      | isTrue h1, isTrue h2 => isTrue (by rw [h1, h2])
      | isFalse h1, _ => isFalse (by simp [h1])
      | _, isFalse h2 => isFalse (by simp [h2])

/-- Decidable equality on dict entry lists. -/
def PyVal.decEqEntries : (a b : List (ℤ × PyVal)) → Decidable (a = b)
  | [], [] => isTrue rfl
  | [], _ :: _ => isFalse (fun h => List.noConfusion h)
  | _ :: _, [] => isFalse (fun h => List.noConfusion h)
  | (k1, v1) :: xs, (k2, v2) :: ys =>
      match (inferInstance : DecidableEq ℤ) k1 k2, PyVal.decEq v1 v2, PyVal.decEqEntries xs ys with
      | isTrue h0, isTrue h1, isTrue h2 => isTrue (by rw [h0, h1, h2])
      | isFalse h0, _, _ => isFalse (by simp [h0])
      | _, isFalse h1, _ => isFalse (by simp [h1])
      | _, _, isFalse h2 => isFalse (by simp [h2])

end

instance : DecidableEq PyVal := PyVal.decEq

/-- The literal marker string recognised by `ParCorrWLS`. -/
def timeMarker : String := "time-dependent heteroskedasticity"

/-- Python subscripting `v[0]`: strings yield their first character, lists
and tuples their head (IndexError when empty), dicts the value at key `0`
(KeyError when absent), integers a TypeError. -/
def pySubscript0 : PyVal → Except String PyVal
  | PyVal.str s =>
      if s.isEmpty then Except.error "IndexError: string index out of range"
      else Except.ok (PyVal.str (s.take 1))
  | PyVal.list l =>
      match l with
      | [] => Except.error "IndexError: list index out of range"
      | x :: _ => Except.ok x
  | PyVal.tup l =>
      match l with
      | [] => Except.error "IndexError: tuple index out of range"
      | x :: _ => Except.ok x
  | PyVal.dict entries =>
      match entries.lookup 0 with
      | some v => Except.ok v
      | Option.none => Except.error "KeyError: 0"
  | PyVal.int _ => Except.error "TypeError: object is not subscriptable"

/-- Python `type(v) is tuple`. -/
def pyIsTuple : PyVal → Bool
  | PyVal.tup _ => true
  | _ => false

/-- Python `isinstance(v, dict)` shape test (used to model which values
support `.items()`). -/
def pyIsDict : PyVal → Bool
  | PyVal.dict _ => true
  | _ => false

/-- Python `d.items()` on a dict: each item is a `(key, value)` tuple. -/
def pyDictItems (entries : List (ℤ × PyVal)) : List PyVal :=
  entries.map (fun kv => PyVal.tup [PyVal.int kv.1, kv.2])

/-- Integer square root (largest `r` with `r * r ≤ n`), implemented by a
structural scan so that it reduces inside the kernel. -/
def natSqrt (n : ℕ) : ℕ :=
  ((List.range (n + 1)).filter (fun r => r * r ≤ n)).length - 1

/-- Exact rational square root, correct on perfect squares: for `q = r ^ 2`
with `0 ≤ r`, `ratSqrt q = r`.  Models `np.sqrt` inside `np.std` on the
inputs where an exact model is possible. -/
def ratSqrt (q : ℚ) : ℚ :=
  (natSqrt q.num.toNat : ℚ) / (natSqrt q.den : ℚ)

/-- Computable inverse of a square rational matrix through the adjugate
formula; coincides with `Matrix.inv` (zero matrix on singular input). -/
def qInv {p : ℕ} (M : Matrix (Fin p) (Fin p) ℚ) : Matrix (Fin p) (Fin p) ℚ :=
  (M.det)⁻¹ • M.adjugate

/-- Modelled from the spec: `numpy.linalg.lstsq` (external collaborator),
"least-squares fit (minimum-norm solution on rank deficiency, no exception
raised)".  Normal-equations solution `(AᵀA)⁻¹ Aᵀ b`; equals the
least-squares solution whenever `AᵀA` is invertible, zero vector when it is
singular. -/
def lstsq {n p : ℕ} (A : Matrix (Fin n) (Fin p) ℚ) (b : Fin n → ℚ) : Fin p → ℚ :=
  Matrix.mulVec (qInv (A.transpose * A)) (Matrix.mulVec A.transpose b)

/-- Data array of the test: `2 + dz` rows (X, Y, then the conditions Z) and
`T` time-aligned columns, with exact rational entries. -/
abbrev Arr (dz T : ℕ) := Matrix (Fin (2 + dz)) (Fin T) ℚ

/-- Data array whose entries may be NaN (`none`). -/
abbrev NArr (dz T : ℕ) := Matrix (Fin (2 + dz)) (Fin T) (Option ℚ)

/-- Row index of the target variable (0 = X, 1 = Y) inside the array. -/
def tvIdx {dz : ℕ} (tv : Fin 2) : Fin (2 + dz) := ⟨tv.val, by omega⟩

/-- All entries of a NaN-able array, row-major. -/
def arrEntries {dz T : ℕ} (a : NArr dz T) : List (Option ℚ) :=
  (List.finRange (2 + dz)).flatMap (fun i => (List.finRange T).map (fun j => a i j))

/-- Model of `np.sum(array)` over a possibly-NaN array. -/
def npSum {dz T : ℕ} (a : NArr dz T) : Option ℚ :=
  (arrEntries a).foldl oadd (some 0)

/-- Model of `np.isnan(np.sum(array))`. -/
def hasNaN {dz T : ℕ} (a : NArr dz T) : Bool :=
  (npSum a).isNone

/-- Replace NaN entries by an arbitrary default to obtain the rational
array; on NaN-free arrays this is the identity on values. -/
def toQ {dz T : ℕ} (a : NArr dz T) : Arr dz T :=
  Matrix.of fun i t => (a i t).getD 0

/-- Trailing window sum: model of `np.convolve(a, np.ones(w), 'valid')`.
For `w ≤ len a` the output has length `len a - w + 1` and entry `k` is the
sum of `a[k], …, a[k+w-1]`; convolution is symmetric, so for `w > len a`
every valid position is the total sum of `a`. -/
def convolveOnesValid (w : ℕ) (a : List ℚ) : List ℚ :=
  if w ≤ a.length then
    (List.range (a.length - w + 1)).map (fun k => ∑ i in Finset.range w, a.getD (k + i) 0)
  else
    (List.range (w - a.length + 1)).map (fun _ => a.sum)

/-- Insert an index into an index list sorted ascending by `key`. -/
def insertAsc {α : Type} [LinearOrder α] (key : ℕ → α) (i : ℕ) : List ℕ → List ℕ
  | [] => [i]
  | j :: rest => if key i < key j then i :: j :: rest else j :: insertAsc key i rest

/-- Model of `np.argsort`: indices that sort the list ascending.  The
source calls `np.argsort` without a `kind` argument; the default quicksort
leaves the relative order of tied keys unspecified, so this is one
admissible model (insertion sort), not a guarantee of the source. -/
def argsortL {α : Type} [LinearOrder α] (l : List α) (dflt : α) : List ℕ :=
  (List.range l.length).foldr (insertAsc (fun i => l.getD i dflt)) []

/-- Model of `np.roll(l, k)`: rotate the list right by `k` positions. -/
def rollList {α : Type} (k : ℕ) (l : List α) : List α :=
  if l.length = 0 then l
  else
    let k' := k % l.length
    l.drop (l.length - k') ++ l.take (l.length - k')

/-- Python slice `l[start:stop]` with a possibly negative `stop`. -/
def pySliceTake (l : List ℚ) (start : ℕ) (stop : ℤ) : List ℚ :=
  let stopIdx : ℤ := if stop < 0 then (l.length : ℤ) + stop else stop
  (l.take stopIdx.toNat).drop start

/-- Absolute OLS residuals of the target row regressed on the condition
rows (rows `2..`), shared by `_estimate_std_time` and
`_estimate_std_parent`; absolute raw values when there are no conditions. -/
def absResidList {dz T : ℕ} (arr : Arr dz T) (targetVar : Fin 2) : List ℚ :=
  let y : Fin T → ℚ := fun t => arr (tvIdx targetVar) t
  if 0 < dz then
    let z : Matrix (Fin T) (Fin dz) ℚ := Matrix.of fun t j => arr ⟨2 + j.val, by omega⟩ t
    let beta := lstsq z y
    (List.finRange T).map (fun t => |y t - ∑ j, z t j * beta j|)
  else
    (List.finRange T).map (fun t => |y t|)

/-- Model of `ParCorrWLS._estimate_std_time`: absolute OLS residuals,
then a trailing moving average (`window_size`), with the first
`window_size - 1` positions of the output filled with ones. -/
def estimateStdTime {dz T : ℕ} (wsize : ℕ) (arr : Arr dz T) (targetVar : Fin 2) : List ℚ :=
  let resid := absResidList arr targetVar
  List.replicate (wsize - 1) (1 : ℚ) ++
    (convolveOnesValid wsize resid).map (fun x => x / (wsize : ℚ))

/-- Model of `ParCorrWLS._estimate_std_parent`: absolute OLS residuals
sorted by the driver variable's values (taken from the auxiliary data
cache), smoothed by a trailing moving average, unsorted again, padded with
ones and rotated by the effective lag.  A missing cache (`self.data is
None`), a non-tuple or malformed driver descriptor `H`, and out-of-range
fancy indexing are runtime errors.  Negative driver indices use Python
semantics (index from the end). -/
def estimateStdParent {dz T : ℕ} (wsize : ℕ) (data : Option (List (List ℚ)))
    (arr : Arr dz T) (targetVar : Fin 2) (targetLag : ℤ) (H : PyVal) :
    Except String (List ℚ) :=
  if 0 < dz then
    match H, data with
    | PyVal.tup (PyVal.int h0 :: PyVal.int h1 :: _), some dataRows =>
        let resid := absResidList arr targetVar
        let lag : ℤ := h1 + targetLag
        let M : ℕ := (dataRows.headD []).length
        let rowIdx : ℤ := if h0 < 0 then (dataRows.length : ℤ) + h0 else h0
        let h : List ℚ :=
          pySliceTake (dataRows.getD rowIdx.toNat []) (Int.natAbs ((M : ℤ) - (T : ℤ))) lag
        let ordered0 := argsortL h 0
        let ordered := ordered0.map (fun e => e * (if 0 < e then 1 else 0))
        let revert := argsortL ordered 0
        let truncateResid := resid.drop lag.natAbs
        if ordered.all (fun i => i < truncateResid.length) then
          let sortedResid := ordered.map (fun i => truncateResid.getD i 0)
          let varEstSorted :=
            List.replicate (wsize - 1) (1 : ℚ) ++
              (convolveOnesValid wsize sortedResid).map (fun x => x / (wsize : ℚ))
          if revert.all (fun i => i < varEstSorted.length) then
            let stdEst0 := revert.map (fun i => varEstSorted.getD i 0)
            Except.ok (rollList lag.natAbs (stdEst0 ++ List.replicate lag.natAbs (1 : ℚ)))
          else Except.error "IndexError: index out of bounds"
        else Except.error "IndexError: index out of bounds"
    | PyVal.tup _, some _ => Except.error "TypeError: malformed driver descriptor"
    | _, Option.none => Except.error "TypeError: auxiliary data cache is None"
    | _, _ => Except.error "TypeError: driver descriptor is not a tuple"
  else
    let resid := absResidList arr targetVar
    Except.ok
      (List.replicate (wsize - 1) (1 : ℚ) ++
        (convolveOnesValid wsize resid).map (fun x => x / (wsize : ℚ)))

/-- Assignment `stds[count] = std_est`: a length-`T` list broadcast into a
row; a length mismatch is a numpy broadcast error. -/
def listToRow {T : ℕ} (e : List ℚ) : Except String (Fin T → ℚ) :=
  if e.length = T then Except.ok (fun t => e.getD t 0)
  else Except.error "ValueError: could not broadcast"

/-- One iteration of the dispatch loop of `ParCorrWLS._get_std_estimation`
for the tested variable `varRef` (with row `count`): look the variable
index up in the expert-knowledge registry; on the time marker use
`_estimate_std_time`, on a tuple use `_estimate_std_parent`; any other
subscriptable first element leaves the all-ones row silently in place. -/
def stdRowFor {dz T : ℕ} (entries : List (ℤ × PyVal)) (wsize : ℕ)
    (data : Option (List (List ℚ))) (arr : Arr dz T) (count : Fin 2)
    (varRef : ℤ × ℤ) : Except String (Fin T → ℚ) :=
  match entries.lookup varRef.1 with
  | Option.none => Except.ok (fun _ => 1)
  | some v =>
      match pySubscript0 v with
      | Except.error e => Except.error e
      | Except.ok hsSource =>
          if hsSource = PyVal.str timeMarker then
            listToRow (estimateStdTime wsize arr count)
          else if pyIsTuple hsSource then
            match estimateStdParent wsize data arr count varRef.2 hsSource with
            | Except.error e => Except.error e
            | Except.ok e => listToRow e
          else Except.ok (fun _ => 1)

/-- Model of `ParCorrWLS._get_std_estimation`: start from `np.ones((2,T))`
and overwrite each of the two rows according to the registry dispatch. -/
def getStdEstimation {dz T : ℕ} (entries : List (ℤ × PyVal)) (wsize : ℕ)
    (data : Option (List (List ℚ))) (arr : Arr dz T) (x0 y0 : ℤ × ℤ) :
    Except String (Fin 2 → Fin T → ℚ) :=
  match stdRowFor entries wsize data arr 0 x0 with
  | Except.error e => Except.error e
  | Except.ok r0 =>
      match stdRowFor entries wsize data arr 1 y0 with
      | Except.error e => Except.error e
      | Except.ok r1 => Except.ok (fun c => if c = 0 then r0 else r1)

/-- Modelled from the spec: the external array constructor (§3, §6), which
is out of scope of the source file.  Given the dataset (variable index ↦
time ↦ value), it returns one time-aligned row per requested
`(variable, lag)` reference over the observation window left by the
`2*tau_max` cut-off; masking and overlap removal are not exercised by the
claims and are omitted. -/
def specConstructArray (dataset : ℕ → ℕ → ℚ) (numT tauMax : ℕ)
    (varsL : List (ℤ × ℤ)) : List (List ℚ) :=
  varsL.map (fun vr =>
    (List.range (numT - 2 * tauMax)).map
      (fun t => dataset vr.1.toNat ((2 * tauMax + t : ℤ) + vr.2).toNat))

/-- Model of the auxiliary-data-cache construction in
`ParCorrWLS._get_stds` (lines 99–115): call the array constructor with Z
replaced by all variables at lag zero, allocate an `(N, M)` zero matrix and
copy in the prepared row of every reference whose lag is zero. -/
def buildAuxData (dataset : ℕ → ℕ → ℚ) (numT tauMax N : ℕ)
    (X Y : List (ℤ × ℤ)) : List (List ℚ) :=
  let allZ : List (ℤ × ℤ) := (List.range N).map (fun i => ((i : ℤ), 0))
  let nodeIndices := X ++ Y ++ allZ
  let nodes := specConstructArray dataset numT tauMax nodeIndices
  let M := (nodes.headD []).length
  (List.range nodeIndices.length).foldl
    (fun acc idx =>
      let j := nodeIndices.getD idx (0, 0)
      if j.2 = 0 then acc.set j.1.toNat (nodes.getD idx []) else acc)
    (List.replicate N (List.replicate M (0 : ℚ)))

/-- Model of `ParCorrWLS._get_stds`.  With a ground-truth std table the
standard deviations are sliced from the table by the same construction as
the data array.  Otherwise the expert knowledge is finalised (either
literal marker expands to a dict), the auxiliary data cache is rebuilt
whenever `any(type(item) == tuple for item in self.expert_knowledge.items())`
holds — since `.items()` of a dict always yields tuples, that condition is
`entries ≠ []` — and `_get_std_estimation` produces the `(2, T)` std
matrix.  Returns the std matrix together with the new expert-knowledge
value and the new auxiliary cache.  Calling `.items()` on a non-dict value
is an AttributeError. -/
def getStds {dz T : ℕ} (dataset : ℕ → ℕ → ℚ) (numT N tauMax : ℕ)
    (gtStd : Option (List (List ℚ))) (ek : PyVal)
    (dataOld : Option (List (List ℚ))) (wsize : ℕ) (arr : Arr dz T)
    (X Y Z : List (ℤ × ℤ)) :
    Except String ((Fin 2 → Fin T → ℚ) × PyVal × Option (List (List ℚ))) :=
  match gtStd with
  | some gt =>
      let rows := specConstructArray (fun v t => (gt.getD t []).getD v 0) gt.length tauMax
        (X ++ Y ++ Z)
      match listToRow (T := T) (rows.getD 0 []), listToRow (T := T) (rows.getD 1 []) with
      | Except.ok r0, Except.ok r1 =>
          Except.ok (fun c => if c = 0 then r0 else r1, ek, dataOld)
      | _, _ => Except.error "ValueError: ground-truth std table shape mismatch"
  | Option.none =>
      let ek1 : PyVal :=
        if ek = PyVal.str timeMarker then
          PyVal.dict ((List.range N).map (fun v => ((v : ℤ), PyVal.list [PyVal.str timeMarker])))
        else if ek = PyVal.str "homoskedasticity" then PyVal.dict []
        else ek
      match ek1 with
      | PyVal.dict entries =>
          let dataNew :=
            if (pyDictItems entries).any pyIsTuple then
              some (buildAuxData dataset numT tauMax N X Y)
            else dataOld
          match X, Y with
          | x0 :: _, y0 :: _ =>
              match getStdEstimation entries wsize dataNew arr x0 y0 with
              | Except.ok stds => Except.ok (stds, ek1, dataNew)
              | Except.error e => Except.error e
          | _, _ => Except.error "IndexError: X or Y is empty"
      | _ => Except.error "AttributeError: object has no attribute items"

/-- Mean of a row (`np.mean` over axis 1). -/
def rowMean {T : ℕ} (v : Fin T → ℚ) : ℚ := (∑ t, v t) / (T : ℚ)

/-- Population variance of a row (the radicand of `np.std`). -/
def rowVar {T : ℕ} (v : Fin T → ℚ) : ℚ :=
  (∑ t, (v t - rowMean v) ^ 2) / (T : ℚ)

/-- Model of `np.std` over a row, through the exact square root. -/
def npStd {T : ℕ} (v : Fin T → ℚ) : ℚ := ratSqrt (rowVar v)

/-- Model of the in-place standardization step of
`_get_single_residuals` (lines 321–328): centre every row, then divide
every row whose standard deviation is nonzero by that standard
deviation. -/
def standardizeQ {dz T : ℕ} (a : Arr dz T) : Arr dz T :=
  let centered : Arr dz T := Matrix.of fun i t => a i t - rowMean (fun s => a i s)
  Matrix.of fun i t =>
    if npStd (fun s => centered i s) ≠ 0 then
      centered i t / npStd (fun s => centered i s)
    else centered i t

/-- Model of `np.reciprocal` on a float standard deviation: the reciprocal
of `0.0` is the non-finite value `inf`, modelled by `none`; there is no
guard against zero entries. -/
def npReciprocal (s : ℚ) : Option ℚ :=
  if s = 0 then none else some s⁻¹

/-- Result of the weighted residualizer: a residual vector together with
the optionally returned fitted mean, or a raised error, or the marker that
non-finite weights entered the externally solved regression (whose
floating-point outcome the spec leaves undefined). -/
inductive ResidResult (T : ℕ) where
  | resid (r : Fin T → ℚ) (mean : Option (Fin T → ℚ))
  | nonFinite
  | err (msg : String)

instance {T : ℕ} : DecidableEq (ResidResult T) := fun a b =>
  match a, b with
  | ResidResult.resid r1 m1, ResidResult.resid r2 m2 =>
      decidable_of_iff (r1 = r2 ∧ m1 = m2)
        ⟨fun h => by rw [h.1, h.2], fun h => by cases h; exact ⟨rfl, rfl⟩⟩
  | ResidResult.nonFinite, ResidResult.nonFinite => isTrue rfl
  | ResidResult.err e1, ResidResult.err e2 =>
      decidable_of_iff (e1 = e2) ⟨fun h => by rw [h], fun h => by cases h; rfl⟩
  | ResidResult.resid _ _, ResidResult.nonFinite => isFalse (fun h => ResidResult.noConfusion h)
  | ResidResult.resid _ _, ResidResult.err _ => isFalse (fun h => ResidResult.noConfusion h)
  | ResidResult.nonFinite, ResidResult.resid _ _ => isFalse (fun h => ResidResult.noConfusion h)
  | ResidResult.nonFinite, ResidResult.err _ => isFalse (fun h => ResidResult.noConfusion h)
  | ResidResult.err _, ResidResult.resid _ _ => isFalse (fun h => ResidResult.noConfusion h)
  | ResidResult.err _, ResidResult.nonFinite => isFalse (fun h => ResidResult.noConfusion h)

/-- Model of `ParCorrWLS._get_single_residuals`.  Mirrors the source step
by step: NaN check on the raw array; std lookup with all-ones fallback
when `self.stds` is `None`; optional in-place standardization of the
caller's array (the post-call array is the second component of the
result); diagonal weights as elementwise reciprocals of the std row; then
the weighted least-squares regression `resid = (y - z·β)·W` when condition
rows exist, or `resid = y·W` otherwise.  The re-check for NaN after
standardization and the final residual NaN check of the source detect
float overflow, which cannot occur in exact rational arithmetic; the
executions the source would continue with non-finite weights are marked
`nonFinite` (behaviour undefined by the spec). -/
def getSingleResiduals {dz T : ℕ} (a : NArr dz T) (targetVar : Fin 2)
    (standardize returnMeans : Bool) (stdsOpt : Option (Fin 2 → Fin T → ℚ)) :
    ResidResult T × NArr dz T :=
  if hasNaN a then (ResidResult.err "array has nans", a)
  else
    let stds : Fin T → ℚ :=
      match stdsOpt with
      | some s => s targetVar
      | Option.none => fun _ => 1
    let a1 : Arr dz T := if standardize then standardizeQ (toQ a) else toQ a
    let aOut : NArr dz T := if standardize then (standardizeQ (toQ a)).map some else a
    if standardize && hasNaN aOut then (ResidResult.err "array has nans", aOut)
    else
      let y : Fin T → ℚ := fun t => a1 (tvIdx targetVar) t
      let weights : Fin T → Option ℚ := fun t => npReciprocal (stds t)
      if h : ∀ t, (weights t).isSome then
        let wq : Fin T → ℚ := fun t => (weights t).getD 0
        if 0 < dz then
          let z : Matrix (Fin T) (Fin dz) ℚ := Matrix.of fun t j => a1 ⟨2 + j.val, by omega⟩ t
          let zw : Matrix (Fin T) (Fin dz) ℚ := Matrix.of fun t j => wq t * z t j
          let yw : Fin T → ℚ := fun t => y t * wq t
          let beta : Fin dz → ℚ := lstsq zw yw
          let mean : Fin T → ℚ := fun t => ∑ j, z t j * beta j
          let resid : Fin T → ℚ := fun t => (y t - mean t) * wq t
          (ResidResult.resid resid (if returnMeans then some mean else none), aOut)
        else
          (ResidResult.resid (fun t => y t * wq t) none, aOut)
      else (ResidResult.nonFinite, aOut)

/-- Plain ordinary-least-squares residual of the target row regressed on
the condition rows, written from the words of the specification
("residuals produced by the Weighted Residualizer equal the plain OLS
residuals of an unweighted regression"); used as the reference side of the
homoskedastic-path equivalence claim. -/
def olsResiduals {dz T : ℕ} (a : Arr dz T) (targetVar : Fin 2) : Fin T → ℚ :=
  let y : Fin T → ℚ := fun t => a (tvIdx targetVar) t
  if 0 < dz then
    let z : Matrix (Fin T) (Fin dz) ℚ := Matrix.of fun t j => a ⟨2 + j.val, by omega⟩ t
    let beta := lstsq z y
    fun t => y t - ∑ j, z t j * beta j
  else y

/-- The data array `_get_array` constructs for
`get_model_selection_criterion`: `X = Y = [(j, 0)]` and `Z = parents`. -/
def msArr (dataset : ℕ → ℕ → ℚ) (numT tauMax : ℕ) (j : ℤ)
    (parents : List (ℤ × ℤ)) : Arr parents.length (numT - 2 * tauMax) :=
  Matrix.of fun i t =>
    ((specConstructArray dataset numT tauMax ([(j, 0)] ++ [(j, 0)] ++ parents)).getD i []).getD t 0

/-- Model of `ParCorrWLS.get_model_selection_criterion` up to the final
transcendental formula: build the array for `X = Y = [(j, 0)]` (dummy
self-pair) and `Z = parents`, refresh the standard deviations, compute the
weighted residual of the target row (`target_var = 1`), and return the
window length `T`, the residual sum of squares and the parameter count
`p = dim - 1` that the score formula consumes (`robustify = False`
instances; the normalization transform is an external collaborator). -/
def modelSelectionData (dataset : ℕ → ℕ → ℚ) (numT N tauMax : ℕ)
    (gtStd : Option (List (List ℚ))) (ek : PyVal)
    (dataOld : Option (List (List ℚ))) (wsize : ℕ) (j : ℤ)
    (parents : List (ℤ × ℤ)) : Except String (ℕ × ℚ × ℕ) :=
  match getStds dataset numT N tauMax gtStd ek dataOld wsize
      (msArr dataset numT tauMax j parents) [(j, 0)] [(j, 0)] parents with
  | Except.error e => Except.error e
  | Except.ok (stds, _, _) =>
      match getSingleResiduals ((msArr dataset numT tauMax j parents).map some) 1 false false
          (some stds) with
      | (ResidResult.resid r _, _) =>
          Except.ok (numT - 2 * tauMax, ∑ t, (r t) ^ 2,
            (specConstructArray dataset numT tauMax ([(j, 0)] ++ [(j, 0)] ++ parents)).length - 1)
      | (ResidResult.err e, _) => Except.error e
      | (ResidResult.nonFinite, _) => Except.error "non-finite weights"

/-- Model of the score returned by `get_model_selection_criterion`:
`T * ln(RSS) + 2p` plus the small-sample correction when requested, with
`T`, `RSS`, `p` produced by `modelSelectionData`. -/
noncomputable def getModelSelectionCriterion (dataset : ℕ → ℕ → ℚ)
    (numT N tauMax : ℕ) (gtStd : Option (List (List ℚ))) (ek : PyVal)
    (dataOld : Option (List (List ℚ))) (wsize : ℕ) (j : ℤ)
    (parents : List (ℤ × ℤ)) (correctedAic : Bool) : Except String ℝ :=
  match modelSelectionData dataset numT N tauMax gtStd ek dataOld wsize j parents with
  | Except.error e => Except.error e
  | Except.ok (T, rss, p) =>
      if correctedAic then
        Except.ok ((T : ℝ) * Real.log (rss : ℝ) + 2 * (p : ℝ) +
          (2 * (p : ℝ) ^ 2 + 2 * (p : ℝ)) / ((T : ℝ) - (p : ℝ) - 1))
      else Except.ok ((T : ℝ) * Real.log (rss : ℝ) + 2 * (p : ℝ))

/-- The score formula asserted by claim C1, written from the claim's own
words: `T * ln(RSS) + 2p` with `p` equal to the number of parents in `Z`
and `RSS` the same residual sum of squares the code computes. -/
noncomputable def claimC1Score (dataset : ℕ → ℕ → ℚ) (numT N tauMax : ℕ)
    (gtStd : Option (List (List ℚ))) (ek : PyVal)
    (dataOld : Option (List (List ℚ))) (wsize : ℕ) (j : ℤ)
    (parents : List (ℤ × ℤ)) : Except String ℝ :=
  match modelSelectionData dataset numT N tauMax gtStd ek dataOld wsize j parents with
  | Except.error e => Except.error e
  | Except.ok (T, rss, _) =>
      Except.ok ((T : ℝ) * Real.log (rss : ℝ) + 2 * (parents.length : ℝ))

/-- The condition rows of the array (rows `2..`), transposed to the
`T × dz` design matrix of the regression. -/
def condMatrix {dz T : ℕ} (a : Arr dz T) : Matrix (Fin T) (Fin dz) ℚ :=
  Matrix.of fun t j => a ⟨2 + j.val, by omega⟩ t

/-- The target row of the array. -/
def targetRow {dz T : ℕ} (a : Arr dz T) (tv : Fin 2) : Fin T → ℚ :=
  fun t => a (tvIdx tv) t

/-- Weighted least-squares coefficients: both the design matrix and the
target are scaled by the diagonal weights before the solve. -/
def wlsBeta {dz T : ℕ} (a : Arr dz T) (tv : Fin 2) (w : Fin T → ℚ) : Fin dz → ℚ :=
  lstsq (Matrix.of fun t j => w t * condMatrix a t j) (fun t => targetRow a tv t * w t)

/-- Fitted regression line `z · β` (unweighted rows). -/
def wlsMean {dz T : ℕ} (a : Arr dz T) (tv : Fin 2) (w : Fin T → ℚ) : Fin T → ℚ :=
  fun t => ∑ j, condMatrix a t j * wlsBeta a tv w j

/-- Closed form of the weighted residual computed by
`_get_single_residuals` on the finite-weight path: `(y - z·β) · W` when
condition rows exist, `y · W` otherwise. -/
def wlsResid {dz T : ℕ} (a : Arr dz T) (tv : Fin 2) (w : Fin T → ℚ) : Fin T → ℚ :=
  if 0 < dz then fun t => (targetRow a tv t - wlsMean a tv w t) * w t
  else fun t => targetRow a tv t * w t

/-- A centred row of the array (as mutated by the standardization step). -/
def centeredRow {dz T : ℕ} (a : Arr dz T) (i : Fin (2 + dz)) : Fin T → ℚ :=
  fun t => a i t - rowMean (fun s => a i s)

/-- A registry value on which the dispatch of `_get_std_estimation`
silently keeps the all-ones std row: its first element exists but is
neither the time-dependent marker nor a tuple. -/
def silentDescriptor (v : PyVal) : Bool :=
  match pySubscript0 v with
  | Except.ok h => !(h = PyVal.str timeMarker : Bool) && !pyIsTuple h
  | Except.error _ => false

/-- A registry value declaring parent-dependent heteroskedasticity in the
sense of the spec: a (subscriptable) value whose first element is a
`(driver-index, driver-lag)` tuple. -/
def descriptorIsParentDependent (v : PyVal) : Bool :=
  match pySubscript0 v with
  | Except.ok h => pyIsTuple h
  | Except.error _ => false
theorem oadd_none_left (x : Option ℚ) : oadd none x = none := by
  cases x <;> rfl

theorem oadd_isNone (x y : Option ℚ) :
    (oadd x y).isNone = (x.isNone || y.isNone) := by
  cases x <;> cases y <;> rfl

theorem foldl_oadd_isNone (l : List (Option ℚ)) (acc : Option ℚ) :
    (l.foldl oadd acc).isNone = (acc.isNone || l.any Option.isNone) := by
  induction l generalizing acc with
  | nil => simp
  | cons x xs ih =>
      simp only [List.foldl_cons, ih, oadd_isNone, List.any_cons]
      cases acc <;> cases x <;> simp

theorem mem_arrEntries {dz T : ℕ} (a : NArr dz T) (i : Fin (2 + dz)) (j : Fin T) :
    a i j ∈ arrEntries a :=
  List.mem_flatMap.mpr ⟨i, List.mem_finRange i, List.mem_map_of_mem _ (List.mem_finRange j)⟩

theorem hasNaN_iff {dz T : ℕ} (a : NArr dz T) :
    hasNaN a = true ↔ ∃ i j, a i j = none := by
  unfold hasNaN npSum
  rw [foldl_oadd_isNone]
  simp only [Option.isNone_some, Bool.false_or, List.any_eq_true]
  constructor
  · rintro ⟨x, hx, hnone⟩
    obtain ⟨i, -, hx2⟩ := List.mem_flatMap.mp hx
    obtain ⟨j, -, rfl⟩ := List.mem_map.mp hx2
    exact ⟨i, j, by simpa using hnone⟩
  · rintro ⟨i, j, hij⟩
    exact ⟨a i j, mem_arrEntries a i j, by simp [hij]⟩

theorem hasNaN_eq_false_iff {dz T : ℕ} (a : NArr dz T) :
    hasNaN a = false ↔ ∀ i j, a i j ≠ none := by
  rw [← Bool.not_eq_true, hasNaN_iff]
  push_neg
  rfl


theorem hasNaN_map_some {dz T : ℕ} (M : Arr dz T) : hasNaN (M.map some) = false := by
  rw [hasNaN_eq_false_iff]
  intro i j
  simp [Matrix.map_apply]

theorem toQ_map_some {dz T : ℕ} (M : Arr dz T) : toQ (M.map some) = M := by
  ext i j
  simp [toQ, Matrix.map_apply]

theorem getSingleResiduals_ne_err {dz T : ℕ} (a : NArr dz T) (tv : Fin 2)
    (st rm : Bool) (so : Option (Fin 2 → Fin T → ℚ)) (hn : hasNaN a = false)
    (msg : String) :
    (getSingleResiduals a tv st rm so).1 ≠ ResidResult.err msg := by
  cases st with
  | false =>
      unfold getSingleResiduals
      simp only [hn, Bool.false_eq_true, if_false, Bool.false_and]
      split
      · split <;> simp
      · simp
  | true =>
      unfold getSingleResiduals
      simp only [hn, Bool.false_eq_true, if_false, eq_self_iff_true, if_true,
        Bool.true_and, hasNaN_map_some]
      split
      · split <;> simp
      · simp

/-- C5: an array containing a NaN entry makes `_get_single_residuals`
raise immediately — before standardization can mutate the array (the
caller's array is returned unchanged) and independently of the standard
deviations, the flags, and every later step; an array without NaN entries
passes the initial check and that check raises no error. -/
theorem claim5_nan_rejection {dz T : ℕ} (a : NArr dz T) (tv : Fin 2)
    (standardize returnMeans : Bool) (stdsOpt : Option (Fin 2 → Fin T → ℚ)) :
    ((∃ i j, a i j = none) →
      getSingleResiduals a tv standardize returnMeans stdsOpt =
        (ResidResult.err "array has nans", a)) ∧
    ((∀ i j, a i j ≠ none) →
      hasNaN a = false ∧
      (getSingleResiduals a tv standardize returnMeans stdsOpt).1 ≠
        ResidResult.err "array has nans") := by
  constructor
  · intro h
    have hn : hasNaN a = true := (hasNaN_iff a).mpr h
    unfold getSingleResiduals
    simp [hn]
  · intro h
    have hn : hasNaN a = false := (hasNaN_eq_false_iff a).mpr h
    exact ⟨hn, getSingleResiduals_ne_err a tv standardize returnMeans stdsOpt hn _⟩

/-- Witness for C5 at concrete arrays: a 2×1 array with a NaN entry is
rejected with the array unmutated, and a NaN-free 2×1 array passes the
initial check. -/
theorem claim5_nan_rejection_witness :
    getSingleResiduals ((Matrix.of fun _ _ => none) : NArr 0 1) 0 true false Option.none =
      (ResidResult.err "array has nans", Matrix.of fun _ _ => none) ∧
    hasNaN ((Matrix.of fun _ _ => some 1) : NArr 0 1) = false ∧
    (getSingleResiduals ((Matrix.of fun _ _ => some 1) : NArr 0 1) 0 true false Option.none).1 ≠
      ResidResult.err "array has nans" :=
  ⟨(claim5_nan_rejection _ 0 true false Option.none).1 ⟨0, 0, rfl⟩,
   ((claim5_nan_rejection _ 0 true false Option.none).2 (by decide)).1,
   ((claim5_nan_rejection _ 0 true false Option.none).2 (by decide)).2⟩

theorem absResidList_length {dz T : ℕ} (arr : Arr dz T) (tv : Fin 2) :
    (absResidList arr tv).length = T := by
  unfold absResidList
  split <;> simp

theorem convolveOnesValid_length (w : ℕ) (a : List ℚ) (h : w ≤ a.length) :
    (convolveOnesValid w a).length = a.length - w + 1 := by
  unfold convolveOnesValid
  rw [if_pos h]
  simp

theorem convolveOnesValid_getD (w : ℕ) (a : List ℚ) (k : ℕ) (h : w ≤ a.length)
    (hk : k < a.length - w + 1) :
    (convolveOnesValid w a).getD k 0 = ∑ i in Finset.range w, a.getD (k + i) 0 := by
  unfold convolveOnesValid
  rw [if_pos h, List.getD_eq_getElem?_getD, List.getElem?_map, List.getElem?_range hk]
  rfl

theorem getD_map_div (l : List ℚ) (c : ℚ) (n : ℕ) (h : n < l.length) :
    (l.map (fun x => x / c)).getD n 0 = l.getD n 0 / c := by
  rw [List.getD_eq_getElem?_getD, List.getElem?_map, List.getElem?_eq_getElem h,
    List.getD_eq_getElem?_getD, List.getElem?_eq_getElem h]
  rfl

/-- C7: for `T ≥ window_size ≥ 1` the time-dependent standard-deviation
estimate has length exactly `T`, its first `window_size - 1` entries are
exactly 1, and its entry at each position `t ≥ window_size - 1` is the mean
of the `window_size` most recent absolute residuals ending at `t`. -/
theorem claim7_time_smoothing {dz T : ℕ} (wsize : ℕ) (arr : Arr dz T) (tv : Fin 2)
    (hw : 1 ≤ wsize) (hT : wsize ≤ T) :
    (estimateStdTime wsize arr tv).length = T ∧
    (∀ t, t < wsize - 1 → (estimateStdTime wsize arr tv).getD t 0 = 1) ∧
    (∀ t, wsize - 1 ≤ t → t < T →
      (estimateStdTime wsize arr tv).getD t 0 =
        (∑ i in Finset.range wsize,
          (absResidList arr tv).getD (t + 1 - wsize + i) 0) / (wsize : ℚ)) := by
  have hlr : (absResidList arr tv).length = T := absResidList_length arr tv
  have hT' : wsize ≤ (absResidList arr tv).length := by rw [hlr]; exact hT
  have hconv : (convolveOnesValid wsize (absResidList arr tv)).length = T - wsize + 1 := by
    rw [convolveOnesValid_length _ _ hT', hlr]
  refine ⟨?_, ?_, ?_⟩
  · unfold estimateStdTime
    rw [List.length_append, List.length_replicate, List.length_map, hconv]
    omega
  · intro t ht
    unfold estimateStdTime
    rw [List.getD_append _ _ _ _ (by rw [List.length_replicate]; exact ht)]
    rw [List.getD_eq_getElem?_getD, List.getElem?_replicate, if_pos ht]
    rfl
  · intro t h1 h2
    unfold estimateStdTime
    rw [List.getD_append_right _ _ _ _ (by rw [List.length_replicate]; exact h1)]
    rw [List.length_replicate]
    rw [getD_map_div _ _ _ (by rw [hconv]; omega)]
    rw [convolveOnesValid_getD _ _ _ hT' (by rw [hlr]; omega)]
    have hidx : t - (wsize - 1) = t + 1 - wsize := by omega
    rw [hidx]

/-- Witness for C7 at `window_size = 2`, `T = 3` and a concrete array. -/
theorem claim7_time_smoothing_witness :
    (estimateStdTime 2 ((Matrix.of fun _ t => (t.val : ℚ)) : Arr 0 3) 0).length = 3 ∧
    (estimateStdTime 2 ((Matrix.of fun _ t => (t.val : ℚ)) : Arr 0 3) 0).getD 0 0 = 1 ∧
    (estimateStdTime 2 ((Matrix.of fun _ t => (t.val : ℚ)) : Arr 0 3) 0).getD 2 0 =
      (∑ i in Finset.range 2,
        (absResidList ((Matrix.of fun _ t => (t.val : ℚ)) : Arr 0 3) 0).getD (2 + 1 - 2 + i) 0) /
        (2 : ℚ) :=
  ⟨(claim7_time_smoothing 2 _ 0 (by norm_num) (by norm_num)).1,
   (claim7_time_smoothing 2 _ 0 (by norm_num) (by norm_num)).2.1 0 (by norm_num),
   (claim7_time_smoothing 2 _ 0 (by norm_num) (by norm_num)).2.2 2 (by norm_num) (by norm_num)⟩

/-- C10: the weight construction applies `np.reciprocal` to the std vector
with no guard: the reciprocal of a zero standard deviation is non-finite,
and on a NaN-free array with a zero std entry the residualizer raises no
error at the weight-construction step — the run reaches the regression
entry carrying non-finite weights (marked `nonFinite`), not an `err`. -/
theorem claim10_zero_std_nonfinite :
    npReciprocal (0 : ℚ) = none ∧
    getSingleResiduals ((Matrix.of fun _ _ => some 1) : NArr 1 2) 0 false false
        (some fun _ t => if t = 0 then 1 else 0) =
      (ResidResult.nonFinite, Matrix.of fun _ _ => some 1) := by
  constructor
  · rfl
  · decide

/-- C3 (code bug): with the default expert knowledge (the time-dependent
marker, which expands to a registry whose every descriptor is
time-dependent and none parent-dependent), `_get_stds` nevertheless builds
and assigns the auxiliary data cache, because
`any(type(item) == tuple for item in self.expert_knowledge.items())` is
true for every nonempty dict — `.items()` always yields tuples. -/
theorem claim3_failing_input_eval :
    ((getStds (fun _ _ => 0) 1 1 0 Option.none (PyVal.str timeMarker)
        Option.none 1 ((Matrix.of fun _ _ => 0) : Arr 0 1) [((0 : ℤ), (0 : ℤ))]
        [((0 : ℤ), (0 : ℤ))] []).toOption.map (fun out => (out.2.2.isSome, out.2.1))) =
      some (true, PyVal.dict [((0 : ℤ), PyVal.list [PyVal.str timeMarker])]) ∧
    List.all [((0 : ℤ), PyVal.list [PyVal.str timeMarker])]
      (fun kv => !descriptorIsParentDependent kv.2) = true := by
  constructor
  · decide
  · decide

/-- C2 (counterexample): a malformed expert-knowledge mapping — variable 0
mapped to a one-element list containing an unrecognised string, which is
neither the time-dependent marker nor a `(driver, lag)` tuple — makes the
weight-estimation call return all-one standard deviations with no error
raised, instead of the hard error the claim demands. -/
theorem claim2_counterexample :
    ((getStds (fun _ _ => 0) 1 1 0 Option.none
        (PyVal.dict [((0 : ℤ), PyVal.list [PyVal.str "parent-dependent"])]) Option.none 10
        ((Matrix.of fun _ _ => 0) : Arr 0 1) [((0 : ℤ), (0 : ℤ))] [((1 : ℤ), (0 : ℤ))]
        []).toOption.map
      (fun out => (out.1 0 0, out.1 1 0))) = some ((1 : ℚ), (1 : ℚ)) ∧
    silentDescriptor (PyVal.list [PyVal.str "parent-dependent"]) = true := by
  constructor
  · decide
  · decide

theorem lookup_mem_pyval {l : List (ℤ × PyVal)} {k : ℤ} {v : PyVal}
    (h : l.lookup k = some v) : (k, v) ∈ l := by
  induction l with
  | nil => simp [List.lookup] at h
  | cons kv rest ih =>
      obtain ⟨k1, v1⟩ := kv
      rw [List.lookup] at h
      by_cases hk : k = k1
      · subst hk
        simp only [beq_self_eq_true] at h
        cases h
        exact List.mem_cons_self _ _
      · have hb : (k == k1) = false := beq_false_of_ne hk
        rw [hb] at h
        exact List.mem_cons_of_mem _ (ih h)

/-- C2 amended: expert knowledge that is not a dict (and is neither
recognised marker) raises a hard AttributeError at the first
weight-estimation call; but a mapping whose every value is subscriptable
with a first element that is neither the time-dependent marker nor a tuple
is consumed silently — estimation proceeds and returns all-one standard
deviations with no error. -/
theorem claim2_amended :
    (∀ {dz T : ℕ} (dataset : ℕ → ℕ → ℚ) (numT N tauMax : ℕ)
        (dataOld : Option (List (List ℚ))) (wsize : ℕ) (arr : Arr dz T)
        (X Y Z : List (ℤ × ℤ)) (ek : PyVal),
        pyIsDict ek = false → ek ≠ PyVal.str timeMarker →
        ek ≠ PyVal.str "homoskedasticity" →
        getStds dataset numT N tauMax Option.none ek dataOld wsize arr X Y Z =
          Except.error "AttributeError: object has no attribute items") ∧
    (∀ {dz T : ℕ} (entries : List (ℤ × PyVal)) (wsize : ℕ)
        (data : Option (List (List ℚ))) (arr : Arr dz T) (x0 y0 : ℤ × ℤ),
        (∀ kv ∈ entries, silentDescriptor kv.2 = true) →
        getStdEstimation entries wsize data arr x0 y0 =
          Except.ok (fun _ _ => 1)) := by
  constructor
  · intro dz T dataset numT N tauMax dataOld wsize arr X Y Z ek h1 h2 h3
    unfold getStds
    rw [if_neg h2, if_neg h3]
    cases ek with
    | dict entries => simp [pyIsDict] at h1
    | int n => rfl
    | str s => rfl
    | tup l => rfl
    | list l => rfl
  · intro dz T entries wsize data arr x0 y0 hall
    have hrow : ∀ (c : Fin 2) (vr : ℤ × ℤ),
        stdRowFor entries wsize data arr c vr = Except.ok (fun _ => 1) := by
      intro c vr
      unfold stdRowFor
      cases hl : entries.lookup vr.1 with
      | none => rfl
      | some v =>
          have hs := hall _ (lookup_mem_pyval hl)
          unfold silentDescriptor at hs
          cases hsub : pySubscript0 v with
          | error e => rw [hsub] at hs; simp at hs
          | ok h0 =>
              rw [hsub] at hs
              simp only [Bool.and_eq_true, Bool.not_eq_true'] at hs
              simp only [hsub]
              rw [if_neg (of_decide_eq_false hs.1), if_neg (by simp [hs.2])]
    unfold getStdEstimation
    rw [hrow 0 x0, hrow 1 y0]
    have hfun : (fun c : Fin 2 => if c = 0 then (fun _ : Fin T => (1 : ℚ)) else fun _ => 1) =
        fun _ _ => 1 := by
      funext c t
      split <;> rfl
    show Except.ok (fun c : Fin 2 => if c = 0 then (fun _ : Fin T => (1 : ℚ)) else fun _ => 1) =
      Except.ok (fun _ _ => 1)
    rw [hfun]

/-- Witness for C2 amended: a non-dict expert knowledge raises, and a
mapping with an unrecognised (but subscriptable) descriptor silently
yields all-one weights. -/
theorem claim2_amended_witness :
    getStds (fun _ _ => 0) 1 1 0 Option.none (PyVal.int 3) Option.none 10
      ((Matrix.of fun _ _ => 0) : Arr 0 1) [((0 : ℤ), (0 : ℤ))] [((0 : ℤ), (0 : ℤ))] [] =
      Except.error "AttributeError: object has no attribute items" ∧
    getStdEstimation [((0 : ℤ), PyVal.list [PyVal.str "x"])] 10 Option.none
      ((Matrix.of fun _ _ => 0) : Arr 0 1) ((0 : ℤ), (0 : ℤ)) ((1 : ℤ), (0 : ℤ)) =
      Except.ok (fun _ _ => 1) :=
  ⟨claim2_amended.1 _ _ _ _ _ _ _ _ _ _ _ (by decide) (by decide) (by decide),
   claim2_amended.2 _ _ _ _ _ _ (by decide)⟩

theorem getSingleResiduals_eval {dz T : ℕ} (a : NArr dz T) (tv : Fin 2) (rm : Bool)
    (stds : Fin 2 → Fin T → ℚ) (hnan : hasNaN a = false)
    (hz : ∀ t, stds tv t ≠ 0) :
    getSingleResiduals a tv false rm (some stds) =
      (ResidResult.resid (wlsResid (toQ a) tv (fun t => (stds tv t)⁻¹))
        (if 0 < dz then
          (if rm then some (wlsMean (toQ a) tv (fun t => (stds tv t)⁻¹)) else none)
         else none), a) := by
  have hw : ∀ t : Fin T, (npReciprocal (stds tv t)).isSome = true := by
    intro t
    simp [npReciprocal, hz t]
  have hwq : ∀ t : Fin T, (npReciprocal (stds tv t)).getD 0 = (stds tv t)⁻¹ := by
    intro t
    simp [npReciprocal, hz t]
  unfold getSingleResiduals
  simp only [hnan, Bool.false_eq_true, if_false, Bool.false_and]
  rw [dif_pos hw]
  by_cases hdz : 0 < dz
  · rw [if_pos hdz]
    unfold wlsResid wlsMean wlsBeta condMatrix targetRow
    simp only [if_pos hdz, hwq]
  · rw [if_neg hdz]
    unfold wlsResid targetRow
    simp only [if_neg hdz, hwq]

theorem getStds_homoskedastic {dz T : ℕ} (dataset : ℕ → ℕ → ℚ) (numT N tauMax : ℕ)
    (dataOld : Option (List (List ℚ))) (wsize : ℕ) (arr : Arr dz T)
    (x0 y0 : ℤ × ℤ) (Xs Ys Z : List (ℤ × ℤ)) :
    getStds dataset numT N tauMax Option.none (PyVal.str "homoskedasticity") dataOld wsize arr
      (x0 :: Xs) (y0 :: Ys) Z =
      Except.ok (fun _ _ => 1, PyVal.dict [], dataOld) := by
  have hfun : (fun c : Fin 2 => if c = 0 then (fun _ : Fin T => (1 : ℚ)) else fun _ => 1) =
      (fun _ _ => 1 : Fin 2 → Fin T → ℚ) := by
    funext c t
    split <;> rfl
  show Except.ok
      ((fun c : Fin 2 => if c = 0 then (fun _ : Fin T => (1 : ℚ)) else fun _ => 1),
        PyVal.dict [], dataOld) = _
  rw [hfun]

theorem wlsResid_one {dz T : ℕ} (a : Arr dz T) (tv : Fin 2) :
    wlsResid a tv (fun _ => (1 : ℚ)) = olsResiduals a tv := by
  unfold wlsResid olsResiduals wlsMean wlsBeta targetRow
  have hz : (Matrix.of fun t j => (1 : ℚ) * condMatrix a t j) =
      (Matrix.of fun (t : Fin T) (j : Fin dz) => a ⟨2 + j.val, by omega⟩ t) := by
    ext t j
    simp [condMatrix]
  have hy : (fun t => a (tvIdx tv) t * (1 : ℚ)) = fun t => a (tvIdx tv) t := by
    funext t
    rw [mul_one]
  by_cases hdz : 0 < dz
  · rw [if_pos hdz, if_pos hdz, hz, hy]
    funext t
    rw [mul_one]
    simp [condMatrix]
  · rw [if_neg hdz, if_neg hdz]
    funext t
    rw [mul_one]

/-- C6: with expert knowledge "homoskedasticity" the registry finalises to
the empty dict, the estimated standard deviations are all ones and the
auxiliary cache is left unchanged; and with all-one standard deviations
the weighted residualizer returns exactly the plain unweighted OLS
residual of the target row on the condition rows, for every NaN-free
array (the identity weight matrix makes both computations coincide). -/
theorem claim6_homoskedastic_path :
    (∀ {dz T : ℕ} (dataset : ℕ → ℕ → ℚ) (numT N tauMax : ℕ)
        (dataOld : Option (List (List ℚ))) (wsize : ℕ) (arr : Arr dz T)
        (x0 y0 : ℤ × ℤ) (Xs Ys Z : List (ℤ × ℤ)),
        getStds dataset numT N tauMax Option.none (PyVal.str "homoskedasticity") dataOld wsize
          arr (x0 :: Xs) (y0 :: Ys) Z =
          Except.ok (fun _ _ => 1, PyVal.dict [], dataOld)) ∧
    (∀ {dz T : ℕ} (a : NArr dz T) (tv : Fin 2),
        hasNaN a = false →
        getSingleResiduals a tv false false (some fun _ _ => 1) =
          (ResidResult.resid (olsResiduals (toQ a) tv) none, a)) := by
  constructor
  · intro dz T dataset numT N tauMax dataOld wsize arr x0 y0 Xs Ys Z
    exact getStds_homoskedastic dataset numT N tauMax dataOld wsize arr x0 y0 Xs Ys Z
  · intro dz T a tv hnan
    have h := getSingleResiduals_eval a tv false (fun _ _ => 1) hnan (by intro t; norm_num)
    rw [h]
    have hone : (fun t : Fin T => ((fun (_ : Fin 2) (_ : Fin T) => (1 : ℚ)) tv t)⁻¹) =
        fun _ : Fin T => (1 : ℚ) := by
      funext t
      exact inv_one
    rw [hone, wlsResid_one]
    simp only [Bool.false_eq_true, if_false, ite_self]

/-- Witness for C6 at a concrete configuration and a concrete NaN-free
array. -/
theorem claim6_homoskedastic_path_witness :
    getStds (fun _ _ => 0) 1 1 0 Option.none
        (PyVal.str "homoskedasticity") Option.none 2 ((Matrix.of fun _ _ => 0) : Arr 0 1)
        [((0 : ℤ), (0 : ℤ))] [((0 : ℤ), (0 : ℤ))] [] =
      Except.ok (fun _ _ => 1, PyVal.dict [], Option.none) ∧
    getSingleResiduals ((Matrix.of fun _ _ => some 1) : NArr 0 1) 0 false false
        (some fun _ _ => 1) =
      (ResidResult.resid (olsResiduals (toQ ((Matrix.of fun _ _ => some 1) : NArr 0 1)) 0) none,
        Matrix.of fun _ _ => some 1) :=
  ⟨claim6_homoskedastic_path.1 _ _ _ _ _ _ _ _ _ _ _ _,
   claim6_homoskedastic_path.2 _ 0 (by decide)⟩

theorem qInv_smul {p : ℕ} (M : Matrix (Fin p) (Fin p) ℚ) (r : ℚ) (hr : r ≠ 0) :
    qInv (r • M) = r⁻¹ • qInv M := by
  cases p with
  | zero =>
      apply Matrix.ext
      intro i
      exact absurd i.2 (by omega)
  | succ k =>
      unfold qInv
      rw [Matrix.det_smul, Matrix.adjugate_smul, smul_smul, smul_smul, Fintype.card_fin]
      congr 1
      rw [mul_inv]
      have hpow : (r ^ (k + 1))⁻¹ * r ^ (k + 1 - 1) = r⁻¹ := by
        rw [Nat.add_sub_cancel, pow_succ, mul_inv]
        field_simp
      calc (r ^ (k + 1))⁻¹ * M.det⁻¹ * r ^ (k + 1 - 1)
          = (r ^ (k + 1))⁻¹ * r ^ (k + 1 - 1) * M.det⁻¹ := by ring
        _ = r⁻¹ * M.det⁻¹ := by rw [hpow]

theorem lstsq_smul {n p : ℕ} (A : Matrix (Fin n) (Fin p) ℚ) (b : Fin n → ℚ) (d : ℚ)
    (hd : d ≠ 0) :
    lstsq (d • A) (d • b) = lstsq A b := by
  unfold lstsq
  simp only [Matrix.transpose_smul, Matrix.smul_mul, Matrix.mul_smul,
    Matrix.smul_mulVec_assoc, Matrix.mulVec_smul, smul_smul]
  rw [qInv_smul _ _ (mul_ne_zero hd hd)]
  simp only [Matrix.smul_mulVec_assoc, Matrix.mulVec_smul, smul_smul]
  have hone : d * d * (d * d)⁻¹ = 1 := mul_inv_cancel₀ (mul_ne_zero hd hd)
  rw [hone, one_smul]

theorem wlsBeta_smul {dz T : ℕ} (a : Arr dz T) (tv : Fin 2) (w : Fin T → ℚ) (d : ℚ)
    (hd : d ≠ 0) :
    wlsBeta a tv (fun t => d * w t) = wlsBeta a tv w := by
  unfold wlsBeta
  have h1 : (Matrix.of fun t j => (d * w t) * condMatrix a t j) =
      d • (Matrix.of fun t j => w t * condMatrix a t j) := by
    ext t j
    simp [Matrix.smul_apply, mul_assoc]
  have h2 : (fun t => targetRow a tv t * (d * w t)) =
      d • fun t => targetRow a tv t * w t := by
    funext t
    simp [Pi.smul_apply, smul_eq_mul]
    ring
  rw [h1, h2, lstsq_smul _ _ _ hd]

theorem wlsResid_smul {dz T : ℕ} (a : Arr dz T) (tv : Fin 2) (w : Fin T → ℚ) (d : ℚ)
    (hd : d ≠ 0) :
    wlsResid a tv (fun t => d * w t) = fun t => d * wlsResid a tv w t := by
  have hm : wlsMean a tv (fun t => d * w t) = wlsMean a tv w := by
    unfold wlsMean
    rw [wlsBeta_smul _ _ _ _ hd]
  unfold wlsResid
  by_cases hdz : 0 < dz
  · rw [if_pos hdz, if_pos hdz]
    funext t
    rw [hm]
    ring
  · rw [if_neg hdz, if_neg hdz]
    funext t
    ring

/-- C8: for a NaN-free array and a strictly positive standard-deviation
vector, multiplying every std entry by a positive constant `c` multiplies
the residual returned by the weighted residualizer (standardize = false)
by `1 / c`. -/
theorem claim8_weight_scaling {dz T : ℕ} (a : NArr dz T) (tv : Fin 2)
    (stds : Fin 2 → Fin T → ℚ) (c : ℚ) (hnan : hasNaN a = false)
    (hpos : ∀ t, 0 < stds tv t) (hc : 0 < c) :
    ∃ r : Fin T → ℚ,
      getSingleResiduals a tv false false (some stds) = (ResidResult.resid r none, a) ∧
      getSingleResiduals a tv false false (some fun v t => c * stds v t) =
        (ResidResult.resid (fun t => c⁻¹ * r t) none, a) := by
  have hz1 : ∀ t, stds tv t ≠ 0 := fun t => ne_of_gt (hpos t)
  have hz2 : ∀ t : Fin T, (fun (v : Fin 2) (s : Fin T) => c * stds v s) tv t ≠ 0 :=
    fun t => mul_ne_zero (ne_of_gt hc) (hz1 t)
  have h1 := getSingleResiduals_eval a tv false stds hnan hz1
  have h2 := getSingleResiduals_eval a tv false (fun v s => c * stds v s) hnan hz2
  refine ⟨wlsResid (toQ a) tv (fun t => (stds tv t)⁻¹), ?_, ?_⟩
  · rw [h1]
    simp only [Bool.false_eq_true, if_false, ite_self]
  · rw [h2]
    have hw : (fun t : Fin T => ((fun (v : Fin 2) (s : Fin T) => c * stds v s) tv t)⁻¹) =
        fun t => c⁻¹ * (stds tv t)⁻¹ := by
      funext t
      rw [mul_inv]
    rw [hw, wlsResid_smul _ _ _ _ (inv_ne_zero (ne_of_gt hc))]
    simp only [Bool.false_eq_true, if_false, ite_self]

/-- Witness for C8 at a concrete array, stds = 2 and c = 3. -/
theorem claim8_weight_scaling_witness :
    ∃ r : Fin 1 → ℚ,
      getSingleResiduals ((Matrix.of fun _ _ => some 1) : NArr 0 1) 0 false false
          (some fun _ _ => 2) =
        (ResidResult.resid r none, Matrix.of fun _ _ => some 1) ∧
      getSingleResiduals ((Matrix.of fun _ _ => some 1) : NArr 0 1) 0 false false
          (some fun v t => 3 * (fun (_ : Fin 2) (_ : Fin 1) => (2 : ℚ)) v t) =
        (ResidResult.resid (fun t => (3 : ℚ)⁻¹ * r t) none, Matrix.of fun _ _ => some 1) :=
  claim8_weight_scaling _ 0 (fun _ _ => 2) 3 (by decide) (by decide) (by norm_num)

theorem getSingleResiduals_standardize_snd {dz T : ℕ} (a : NArr dz T) (tv : Fin 2)
    (rm : Bool) (so : Option (Fin 2 → Fin T → ℚ)) (hnan : hasNaN a = false) :
    (getSingleResiduals a tv true rm so).2 = (standardizeQ (toQ a)).map some := by
  unfold getSingleResiduals
  simp only [hnan, Bool.false_eq_true, if_false, eq_self_iff_true, if_true, Bool.true_and,
    hasNaN_map_some]
  split
  · split <;> rfl
  · rfl

theorem standardizeQ_apply {dz T : ℕ} (a : Arr dz T) (i : Fin (2 + dz)) (t : Fin T) :
    standardizeQ a i t =
      if npStd (centeredRow a i) ≠ 0 then centeredRow a i t / npStd (centeredRow a i)
      else centeredRow a i t := rfl

theorem ratSqrt_nonneg (q : ℚ) : 0 ≤ ratSqrt q := by
  unfold ratSqrt
  positivity

theorem rowMean_centered {T : ℕ} (v : Fin T → ℚ) :
    rowMean (fun t => v t - rowMean v) = 0 := by
  unfold rowMean
  rcases Nat.eq_zero_or_pos T with h | h
  · subst h
    simp
  · have hT : (T : ℚ) ≠ 0 := Nat.cast_ne_zero.mpr (Nat.pos_iff_ne_zero.mp h)
    rw [Finset.sum_sub_distrib, Finset.sum_const, Finset.card_univ, Fintype.card_fin,
      nsmul_eq_mul]
    field_simp

theorem rowMean_div {T : ℕ} (f : Fin T → ℚ) (c : ℚ) :
    rowMean (fun t => f t / c) = rowMean f / c := by
  unfold rowMean
  rw [← Finset.sum_div, div_right_comm]

/-- C9: with `standardize = True` and a NaN-free array (whose row
variances are perfect rational squares, so the modelled square root is
exact), the caller-visible array after the call is the standardized one:
every row has zero mean, and for the sample standard deviation `sd` of a
row (the nonnegative square root of its variance), a row with `sd ≠ 0` has
been divided by `sd` while a row with `sd = 0` is merely centred; the
array is not restored before returning. -/
theorem claim9_standardize_mutation {dz T : ℕ} (a : NArr dz T) (tv : Fin 2)
    (rm : Bool) (so : Option (Fin 2 → Fin T → ℚ)) (hnan : hasNaN a = false)
    (hsq : ∀ i : Fin (2 + dz),
      npStd (centeredRow (toQ a) i) ^ 2 = rowVar (centeredRow (toQ a) i)) :
    (∀ i, rowMean (fun t => toQ ((getSingleResiduals a tv true rm so).2) i t) = 0) ∧
    (∀ (i : Fin (2 + dz)) (sd : ℚ), 0 ≤ sd → sd ^ 2 = rowVar (centeredRow (toQ a) i) →
      (sd ≠ 0 → ∀ t, toQ ((getSingleResiduals a tv true rm so).2) i t * sd =
        centeredRow (toQ a) i t) ∧
      (sd = 0 → ∀ t, toQ ((getSingleResiduals a tv true rm so).2) i t =
        centeredRow (toQ a) i t)) := by
  have hsnd := getSingleResiduals_standardize_snd a tv rm so hnan
  rw [hsnd, toQ_map_some]
  constructor
  · intro i
    have hc : rowMean (centeredRow (toQ a) i) = 0 := rowMean_centered _
    by_cases h : npStd (centeredRow (toQ a) i) ≠ 0
    · have hrow : (fun t => standardizeQ (toQ a) i t) =
          fun t => centeredRow (toQ a) i t / npStd (centeredRow (toQ a) i) := by
        funext t
        rw [standardizeQ_apply, if_pos h]
      rw [hrow, rowMean_div, hc, zero_div]
    · have hrow : (fun t => standardizeQ (toQ a) i t) = fun t => centeredRow (toQ a) i t := by
        funext t
        rw [standardizeQ_apply, if_neg h]
      rw [hrow]
      exact hc
  · intro i sd hsd0 hsdsq
    have hnn : 0 ≤ npStd (centeredRow (toQ a) i) := ratSqrt_nonneg _
    have h1 : sd ^ 2 = npStd (centeredRow (toQ a) i) ^ 2 := by rw [hsdsq, hsq i]
    have h3 : (sd - npStd (centeredRow (toQ a) i)) * (sd + npStd (centeredRow (toQ a) i)) = 0 := by
      ring_nf
      nlinarith [h1]
    have hsdeq : sd = npStd (centeredRow (toQ a) i) := by
      rcases mul_eq_zero.mp h3 with h4 | h4
      · linarith
      · have h5 : sd = 0 := by linarith
        have h6 : npStd (centeredRow (toQ a) i) = 0 := by linarith
        rw [h5, h6]
    constructor
    · intro hne t
      have hne' : npStd (centeredRow (toQ a) i) ≠ 0 := by rw [← hsdeq]; exact hne
      rw [standardizeQ_apply, if_pos hne', hsdeq]
      exact div_mul_cancel₀ _ hne'
    · intro h0 t
      have h0' : npStd (centeredRow (toQ a) i) = 0 := by rw [← hsdeq]; exact h0
      rw [standardizeQ_apply, if_neg (not_not_intro h0')]

unseal Rat.mul Rat.add Rat.sub Rat.inv in
/-- Witness for C9 at a concrete 2×2 array whose row variances are
perfect squares: row 0 = (1, 3) with std 1, row 1 = (2, 2) with std 0. -/
theorem claim9_standardize_mutation_witness :
    rowMean (fun t => toQ ((getSingleResiduals ((Matrix.of fun i t =>
        if i = 0 then (if t = 0 then some 1 else some 3) else some 2) : NArr 0 2)
        0 true false Option.none).2) 0 t) = 0 ∧
    toQ ((getSingleResiduals ((Matrix.of fun i t =>
        if i = 0 then (if t = 0 then some 1 else some 3) else some 2) : NArr 0 2)
        0 true false Option.none).2) 0 0 * 1 =
      centeredRow (toQ ((Matrix.of fun i t =>
        if i = 0 then (if t = 0 then some 1 else some 3) else some 2) : NArr 0 2)) 0 0 :=
  ⟨(claim9_standardize_mutation _ 0 false Option.none (by decide) (by decide)).1 0,
   ((claim9_standardize_mutation _ 0 false Option.none (by decide) (by decide)).2 0 1
      (by norm_num) (by decide)).1 (by norm_num) 0⟩

/-- C1 amended: for `corrected_aic = False` the returned score is
`T·ln(RSS) + 2p` with `RSS` the sum of squared weighted residuals of the
target row, but `p = dim - 1 = |parents| + 1`: the dummy `X = (j, 0)` row
of the self-pair array inflates the parameter count by one, so `p` exceeds
the number of conditioning variables by exactly one. -/
theorem claim1_score_amended (dataset : ℕ → ℕ → ℚ) (numT N tauMax : ℕ)
    (gtStd : Option (List (List ℚ))) (ek : PyVal) (dataOld : Option (List (List ℚ)))
    (wsize : ℕ) (j : ℤ) (parents : List (ℤ × ℤ))
    (stds : Fin 2 → Fin (numT - 2 * tauMax) → ℚ) (ekOut : PyVal)
    (dOut : Option (List (List ℚ))) (r : Fin (numT - 2 * tauMax) → ℚ)
    (m : Option (Fin (numT - 2 * tauMax) → ℚ))
    (h1 : getStds dataset numT N tauMax gtStd ek dataOld wsize
        (msArr dataset numT tauMax j parents) [(j, 0)] [(j, 0)] parents =
      Except.ok (stds, ekOut, dOut))
    (h2 : (getSingleResiduals ((msArr dataset numT tauMax j parents).map some) 1 false false
        (some stds)).1 = ResidResult.resid r m) :
    getModelSelectionCriterion dataset numT N tauMax gtStd ek dataOld wsize j parents false =
      Except.ok (((numT - 2 * tauMax : ℕ) : ℝ) * Real.log ((∑ t, (r t) ^ 2 : ℚ) : ℝ) +
        2 * ((parents.length : ℝ) + 1)) := by
  have hdim : (specConstructArray dataset numT tauMax ([(j, 0)] ++ [(j, 0)] ++ parents)).length =
      2 + parents.length := by
    unfold specConstructArray
    simp only [List.length_map, List.length_append, List.length_singleton]
  have hr : getSingleResiduals ((msArr dataset numT tauMax j parents).map some) 1 false false
      (some stds) = (ResidResult.resid r m,
        (getSingleResiduals ((msArr dataset numT tauMax j parents).map some) 1 false false
          (some stds)).2) := by
    rw [← h2]
  unfold getModelSelectionCriterion modelSelectionData
  rw [h1]
  simp only []
  rw [hr]
  simp only []
  rw [hdim]
  have hp : 2 + parents.length - 1 = parents.length + 1 := by omega
  rw [hp]
  simp only [Bool.false_eq_true, if_false]
  push_cast
  ring_nf

/-- C1 counterexample: at a concrete dataset with `j = 0` and no parents,
the score returned by the code differs from the claimed formula
`T·ln(RSS) + 2·|parents|` (the code adds `2·(|parents| + 1)`). -/
theorem claim1_score_counterexample :
    getModelSelectionCriterion (fun _ t => (t : ℚ)) 3 1 0 Option.none
        (PyVal.str "homoskedasticity") Option.none 1 0 [] false ≠
      claimC1Score (fun _ t => (t : ℚ)) 3 1 0 Option.none (PyVal.str "homoskedasticity")
        Option.none 1 0 [] := by
  have h1 := getStds_homoskedastic (fun _ t => (t : ℚ)) 3 1 0 Option.none 1
    (msArr (fun _ t => (t : ℚ)) 3 0 0 []) ((0 : ℤ), (0 : ℤ)) ((0 : ℤ), (0 : ℤ)) [] [] []
  have heval := getSingleResiduals_eval (T := 3)
    ((msArr (fun _ t => (t : ℚ)) 3 0 0 []).map some) 1 false (fun _ _ => 1)
    (hasNaN_map_some _) (fun t => one_ne_zero)
  unfold getModelSelectionCriterion claimC1Score modelSelectionData
  rw [h1]
  simp only []
  rw [heval]
  simp only []
  have hdim : (specConstructArray (fun _ t => (t : ℚ)) 3 0
      ([((0 : ℤ), (0 : ℤ))] ++ [((0 : ℤ), (0 : ℤ))] ++ [])).length = 2 := by
    unfold specConstructArray
    simp only [List.length_map, List.length_append, List.length_singleton, List.length_nil]
  rw [hdim]
  simp only [Bool.false_eq_true, if_false]
  intro h
  rw [Except.ok.injEq] at h
  field_simp at h

unseal Rat.mul Rat.add Rat.sub Rat.inv in
/-- Witness for C1 amended at the concrete counterexample configuration:
`T = 3`, residual `(0, 1, 2)`, no parents, score `3·ln(5) + 2·(0 + 1)`. -/
theorem claim1_score_amended_witness :
    getModelSelectionCriterion (fun _ t => (t : ℚ)) 3 1 0 Option.none
        (PyVal.str "homoskedasticity") Option.none 1 0 [] false =
      Except.ok (((3 : ℕ) : ℝ) * Real.log ((∑ t : Fin 3, (((t : ℕ) : ℚ)) ^ 2 : ℚ) : ℝ) +
        2 * ((List.length ([] : List (ℤ × ℤ)) : ℝ) + 1)) :=
  claim1_score_amended (fun _ t => (t : ℚ)) 3 1 0 Option.none (PyVal.str "homoskedasticity")
    Option.none 1 0 [] (fun _ _ => 1) (PyVal.dict []) Option.none
    (fun t => ((t : ℕ) : ℚ)) Option.none
    (getStds_homoskedastic (fun _ t => (t : ℚ)) 3 1 0 Option.none 1
      (msArr (fun _ t => (t : ℚ)) 3 0 0 []) ((0 : ℤ), (0 : ℤ)) ((0 : ℤ), (0 : ℤ)) [] [] [])
    (by decide)
